import Mathlib

/-!
Verification of the `odbc-iter-schema` crate (`src/src/lib.rs`).

The crate implements a recursive convergence engine for database schema
objects: an `EnsureSchema` node carries a check query, a function turning the
check rows into corrective statements, and prerequisite nodes
(`meet_require`).  `ensure_with_dry_run` checks, converges prerequisites,
executes the corrective statements, and re-verifies.

Modelling choices:
* `Sql` is `String` (matching `pub type Sql = String`).
* The `problem` crate's `Problem` error is modelled by its message string;
  `problem!("Verification failed for schema state: {}", name)` becomes that
  formatted string.
* The database handle is an external collaborator (the `odbc_iter` crate).
  Following the spec's interface split, it answers check queries
  (`Handle::query` producing `ValueRow`s) and executes corrective statements
  (`query::<()>(..).no_result()`, modelled as `answerExec` whose error covers
  both a failing statement and an unexpected result set).  Check queries are
  read-only, so the database's answers depend only on the list of corrective
  statements executed so far.
* Every database call and every `info!` log call site is recorded in an event
  trace (`Event`); the trace is the list of events a run emits, in order.
  `debug!` calls are purely diagnostic and are not modelled; they carry no
  data not already in the trace and never affect control flow.
* The `ensure` crate's `ensure` function runs the check closure and either
  returns the `Met` value or runs the `EnsureAction` closure; it is inlined
  here (it performs no re-check of its own).
* Rust's `Result`/`?` become `Except` with explicit matches.
-/

/-- Type alias for SQL statements, `pub type Sql = String` (lib.rs line 9). -/
abbrev Sql := String

/-- Model of the `problem` crate's `Problem` error type as its message. -/
abbrev Problem := String

/-- Outcome enumeration `SchemaState` (lib.rs lines 11-15). -/
inductive SchemaState where
  | Ok
  | Changed
deriving DecidableEq, Repr

/-- Error enumeration `SchemaStateError` (lib.rs lines 17-21). -/
inductive SchemaStateError where
  | CheckError (name : String) (cause : Problem)
  | MeetError (name : String) (cause : Problem)
deriving DecidableEq, Repr

/-- Model of an ODBC column value: either a BOOLEAN/BIT value or some other,
non-boolean value. -/
inductive Value where
  | bit (b : Bool)
  | other (s : String)
deriving DecidableEq, Repr

/-- Model of `odbc_iter::ValueRow`: one row of nullable column values. -/
abbrev ValueRow := List (Option Value)

/-- Observable events of one convergence run: the database calls and the
`info!` log call sites of lib.rs, in program order.
* `queryCall` — `database.query(&check_query)` (lines 130 and 151);
* `execCall` — `database.query::<()>(&meet_query)?.no_result()?` (line 148);
* `logCheck` — `info!("[check]: {}", check_query)` (line 127);
* `logMeeting` — `info!("[!] Meeting schema state for: {}", name)` (line 144);
* `logWouldMeet` — `info!("[would meet]: {}", meet_query)` (line 160). -/
inductive Event where
  | queryCall (sql : Sql)
  | execCall (sql : Sql)
  | logCheck (sql : Sql)
  | logMeeting (name : String)
  | logWouldMeet (sql : Sql)
deriving DecidableEq, Repr

/-- The database collaborator.  Check queries are read-only, so an answer may
depend only on the corrective statements executed so far (first argument) and
the SQL text asked. -/
structure Database where
  answerQuery : List Sql → Sql → Except Problem (List ValueRow)
  answerExec : List Sql → Sql → Except Problem Unit

/-- Statements executed so far, extracted from an event trace. -/
def execsOf : List Event → List Sql
  | [] => []
  | Event.execCall q :: es => q :: execsOf es
  | _ :: es => execsOf es

/-- Events emitted by the check phase (lib.rs lines 126-130): in dry-run mode
the intended check query is first reported informationally, then the check
query is executed in either mode. -/
def checkEvents (dry_run : Bool) (check_query : Sql) : List Event :=
  (if dry_run then [Event.logCheck check_query] else []) ++ [Event.queryCall check_query]

/-- Loop executing the corrective statements in order (lib.rs lines 147-149),
stopping at the first failure.  Returns the loop outcome and the events
emitted; the second argument is the list of statements executed before the
loop started. -/
def runMeets (db : Database) : List Sql → List Sql → Except Problem Unit × List Event
  | [], _ => (Except.ok (), [])
  | q :: qs, execs =>
    match db.answerExec execs q with
    | Except.error p => (Except.error p, [Event.execCall q])
    | Except.ok _ =>
      let r := runMeets db qs (execs ++ [q])
      (r.1, Event.execCall q :: r.2)

/-- The `EnsureSchema` node (lib.rs lines 39-54): a diagnostic name, the check
query, the function from check rows to corrective statements (field `ensure`
in the source, called `check_fn` here to leave the name `ensure` to the method
of lib.rs line 105), and the prerequisite nodes `meet_require`. -/
inductive EnsureSchema where
  | mk (name : String) (check_query : Sql)
       (check_fn : List ValueRow → Except Problem (List Sql))
       (meet_require : List EnsureSchema)

/-- Field accessor for `name`. -/
def EnsureSchema.name : EnsureSchema → String
  | EnsureSchema.mk n _ _ _ => n

/-- Field accessor for `check_query`. -/
def EnsureSchema.check_query : EnsureSchema → Sql
  | EnsureSchema.mk _ q _ _ => q

/-- Field accessor for the row-to-statements function (source field `ensure`). -/
def EnsureSchema.check_fn : EnsureSchema → (List ValueRow → Except Problem (List Sql))
  | EnsureSchema.mk _ _ f _ => f

/-- Field accessor for `meet_require`. -/
def EnsureSchema.meet_require : EnsureSchema → List EnsureSchema
  | EnsureSchema.mk _ _ _ r => r

@[simp]
theorem EnsureSchema.name_mk (n q f r) : (EnsureSchema.mk n q f r).name = n := rfl

@[simp]
theorem EnsureSchema.check_query_mk (n q f r) : (EnsureSchema.mk n q f r).check_query = q := rfl

@[simp]
theorem EnsureSchema.check_fn_mk (n q f r) : (EnsureSchema.mk n q f r).check_fn = f := rfl

@[simp]
theorem EnsureSchema.meet_require_mk (n q f r) : (EnsureSchema.mk n q f r).meet_require = r := rfl

/-- Constructor `EnsureSchema::new` (lib.rs lines 70-84): no prerequisites. -/
def EnsureSchema.new (name : String) (check_query : Sql)
    (check_fn : List ValueRow → Except Problem (List Sql)) : EnsureSchema :=
  EnsureSchema.mk name check_query check_fn []

/-- Model of `odbc_iter` `ResultSet::single`: exactly one row, otherwise an
error (the message text of the external crate is approximated). -/
def single : List ValueRow → Except Problem ValueRow
  | [row] => Except.ok row
  | [] => Except.error "unexpected number of rows: got none, expected one"
  | _ => Except.error "unexpected number of rows: got many, expected one"

/-- Model of `odbc_iter` `TryFromValueRow::try_from_value_row` at type `bool`:
the row must hold exactly one non-NULL BOOLEAN/BIT value. -/
def try_from_value_row_bool : ValueRow → Except Problem Bool
  | [some (Value.bit b)] => Except.ok b
  | [some (Value.other _)] => Except.error "value is not a boolean"
  | [none] => Except.error "value is NULL, expected a boolean"
  | _ => Except.error "row does not hold exactly one value"

/-- Constructor `EnsureSchema::with_bool_check` (lib.rs lines 89-94): the check
function extracts a single boolean row; `true` means nothing to do, `false`
returns `meet_queries` unchanged. -/
def EnsureSchema.with_bool_check (name : String) (check_query : Sql)
    (meet_queries : List Sql) : EnsureSchema :=
  EnsureSchema.new name check_query (fun rows =>
    match single rows with
    | Except.error p => Except.error p
    | Except.ok row =>
      match try_from_value_row_bool row with
      | Except.error p => Except.error p
      | Except.ok result => Except.ok (if result then [] else meet_queries))

/-- Builder `EnsureSchema::with_meet_require` (lib.rs lines 98-101): pushes a
prerequisite at the end of `meet_require`. -/
def EnsureSchema.with_meet_require (self : EnsureSchema) (schema : EnsureSchema) : EnsureSchema :=
  match self with
  | EnsureSchema.mk n q f r => EnsureSchema.mk n q f (r ++ [schema])

theorem EnsureSchema.sizeOf_meet_require_lt (node : EnsureSchema) :
    sizeOf node.meet_require < sizeOf node := by
  cases node with
  | mk n q f r => simp [EnsureSchema.meet_require]

mutual
/-- The convergence engine, method `EnsureSchema::ensure_with_dry_run`
(lib.rs lines 111-169).  Arguments: the node (consumed), the database handle,
the `dry_run` flag and the list of corrective statements executed before this
call.  Returns the Rust result together with the trace of events this call
emits.  The `ensure` crate wrapper is inlined: the `Met` branch returns its
value and the `EnsureAction` branch runs its closure. -/
def ensure_with_dry_run (node : EnsureSchema) (db : Database) (dry_run : Bool)
    (execs : List Sql) : Except SchemaStateError SchemaState × List Event :=
  match db.answerQuery execs node.check_query with
  | Except.error p =>
      (Except.error (SchemaStateError.CheckError node.name p),
       checkEvents dry_run node.check_query)
  | Except.ok rows =>
    match node.check_fn rows with
    | Except.error p =>
        (Except.error (SchemaStateError.CheckError node.name p),
         checkEvents dry_run node.check_query)
    | Except.ok meet_queries =>
      if meet_queries.isEmpty then
        (Except.ok SchemaState.Ok, checkEvents dry_run node.check_query)
      else
        match ensureRequired db dry_run node.meet_require execs with
        | (Except.error e, ev1) =>
            (Except.error e, checkEvents dry_run node.check_query ++ ev1)
        | (Except.ok _, ev1) =>
          if dry_run then
            (Except.ok SchemaState.Ok,
             checkEvents dry_run node.check_query ++ ev1 ++
               (Event.logMeeting node.name :: meet_queries.map Event.logWouldMeet))
          else
            match runMeets db meet_queries (execs ++ execsOf ev1) with
            | (Except.error p, ev3) =>
                (Except.error (SchemaStateError.MeetError node.name p),
                 checkEvents dry_run node.check_query ++ ev1 ++
                   (Event.logMeeting node.name :: ev3))
            | (Except.ok _, ev3) =>
              match db.answerQuery (execs ++ execsOf ev1 ++ execsOf ev3) node.check_query with
              | Except.error p =>
                  (Except.error (SchemaStateError.MeetError node.name p),
                   checkEvents dry_run node.check_query ++ ev1 ++
                     (Event.logMeeting node.name :: (ev3 ++ [Event.queryCall node.check_query])))
              | Except.ok rows2 =>
                match node.check_fn rows2 with
                | Except.error p =>
                    (Except.error (SchemaStateError.MeetError node.name p),
                     checkEvents dry_run node.check_query ++ ev1 ++
                       (Event.logMeeting node.name :: (ev3 ++ [Event.queryCall node.check_query])))
                | Except.ok meet2 =>
                  if meet2.isEmpty then
                    (Except.ok SchemaState.Changed,
                     checkEvents dry_run node.check_query ++ ev1 ++
                       (Event.logMeeting node.name :: (ev3 ++ [Event.queryCall node.check_query])))
                  else
                    (Except.error (SchemaStateError.MeetError node.name
                        ("Verification failed for schema state: " ++ node.name)),
                     checkEvents dry_run node.check_query ++ ev1 ++
                       (Event.logMeeting node.name :: (ev3 ++ [Event.queryCall node.check_query])))
termination_by sizeOf node
decreasing_by exact EnsureSchema.sizeOf_meet_require_lt node

/-- The prerequisite loop of lib.rs lines 140-142: converge every prerequisite
in declared order with the same handle and the same `dry_run` flag, stopping
at the first error, which is returned unchanged. -/
def ensureRequired (db : Database) (dry_run : Bool) (ns : List EnsureSchema)
    (execs : List Sql) : Except SchemaStateError Unit × List Event :=
  match ns with
  | [] => (Except.ok (), [])
  | n :: rest =>
    match ensure_with_dry_run n db dry_run execs with
    | (Except.error e, ev) => (Except.error e, ev)
    | (Except.ok _, ev) =>
      let r := ensureRequired db dry_run rest (execs ++ execsOf ev)
      (r.1, ev ++ r.2)
termination_by sizeOf ns
decreasing_by
  all_goals simp_wf
  all_goals omega
end

/-- Method `EnsureSchema::ensure` (lib.rs lines 105-107): convergence with
`dry_run = false`. -/
def EnsureSchema.ensure (node : EnsureSchema) (db : Database) (execs : List Sql) :
    Except SchemaStateError SchemaState × List Event :=
  ensure_with_dry_run node db false execs

/-! Helper lemmas about traces. -/

@[simp]
theorem execsOf_nil : execsOf [] = [] := rfl

@[simp]
theorem execsOf_queryCall (q : Sql) (es : List Event) :
    execsOf (Event.queryCall q :: es) = execsOf es := rfl

@[simp]
theorem execsOf_execCall (q : Sql) (es : List Event) :
    execsOf (Event.execCall q :: es) = q :: execsOf es := rfl

@[simp]
theorem execsOf_logCheck (q : Sql) (es : List Event) :
    execsOf (Event.logCheck q :: es) = execsOf es := rfl

@[simp]
theorem execsOf_logMeeting (n : String) (es : List Event) :
    execsOf (Event.logMeeting n :: es) = execsOf es := rfl

@[simp]
theorem execsOf_logWouldMeet (q : Sql) (es : List Event) :
    execsOf (Event.logWouldMeet q :: es) = execsOf es := rfl

@[simp]
theorem execsOf_append (a b : List Event) : execsOf (a ++ b) = execsOf a ++ execsOf b := by
  induction a with
  | nil => rfl
  | cons e es ih => cases e <;> simp [ih]

@[simp]
theorem execsOf_checkEvents (d : Bool) (q : Sql) : execsOf (checkEvents d q) = [] := by
  cases d <;> simp [checkEvents]

@[simp]
theorem execsOf_map_logWouldMeet (qs : List Sql) :
    execsOf (qs.map Event.logWouldMeet) = [] := by
  induction qs with
  | nil => rfl
  | cons q qs ih => simp [ih]

/-- Recognizer for database execute calls in a trace. -/
def isExecCall : Event → Bool
  | Event.execCall _ => true
  | _ => false

/-- Recognizer for database check-query calls in a trace. -/
def isQueryCall : Event → Bool
  | Event.queryCall _ => true
  | _ => false

/-- Recognizer for the dry-run informational check report in a trace. -/
def isLogCheck : Event → Bool
  | Event.logCheck _ => true
  | _ => false

theorem execsOf_eq_nil_of_no_exec (ev : List Event) (h : ev.countP isExecCall = 0) :
    execsOf ev = [] := by
  induction ev with
  | nil => rfl
  | cons e es ih =>
    rw [List.countP_cons] at h
    cases e <;> simp only [isExecCall, cond_true, cond_false, if_true, if_false] at h <;>
      [skip; exact absurd h (by omega); skip; skip; skip] <;>
      simp only [execsOf] <;> exact ih (by omega)

/-- A successful corrective loop emits exactly one execute call per statement,
in the order of the statement list. -/
theorem runMeets_ok_events (db : Database) (qs : List Sql) (execs : List Sql)
    (u : Unit) (ev : List Event)
    (h : runMeets db qs execs = (Except.ok u, ev)) :
    ev = qs.map Event.execCall := by
  induction qs generalizing execs ev with
  | nil =>
    simp only [runMeets] at h
    exact (Prod.mk.injEq _ _ _ _ ▸ h).2.symm
  | cons q qs ih =>
    simp only [runMeets] at h
    cases hx : db.answerExec execs q with
    | error p => rw [hx] at h; exact absurd (Prod.mk.injEq _ _ _ _ ▸ h).1 (by simp)
    | ok v =>
      rw [hx] at h
      obtain ⟨h1, h2⟩ := Prod.mk.injEq _ _ _ _ ▸ h
      obtain ⟨ev2, hev2⟩ : ∃ ev2, runMeets db qs (execs ++ [q]) = (Except.ok u, ev2) := by
        refine ⟨(runMeets db qs (execs ++ [q])).2, ?_⟩
        rw [← h1]
      rw [← h2, List.map_cons]
      have := ih (execs ++ [q]) ev2 hev2
      rw [hev2]
      simp [this]

/-- The statements executed by a successful corrective loop are exactly the
statement list. -/
theorem execsOf_runMeets_ok (db : Database) (qs : List Sql) (execs : List Sql)
    (u : Unit) (ev : List Event)
    (h : runMeets db qs execs = (Except.ok u, ev)) :
    execsOf ev = qs := by
  rw [runMeets_ok_events db qs execs u ev h]
  clear h
  induction qs with
  | nil => rfl
  | cons q qs ih => simp only [List.map_cons, execsOf_execCall, ih]

theorem ensureRequired_nil (db : Database) (d : Bool) (execs : List Sql) :
    ensureRequired db d [] execs = (Except.ok (), []) := by
  simp [ensureRequired]

/-- A failing prerequisite stops the loop: its error and its events are the
whole outcome, later prerequisites are not visited. -/
theorem ensureRequired_cons_error (db : Database) (d : Bool) (n : EnsureSchema)
    (ns : List EnsureSchema) (execs : List Sql) (e : SchemaStateError) (ev : List Event)
    (h : ensure_with_dry_run n db d execs = (Except.error e, ev)) :
    ensureRequired db d (n :: ns) execs = (Except.error e, ev) := by
  simp only [ensureRequired]
  rw [h]

/-- A successful prerequisite is followed by the remaining ones, which start
from the statements it executed. -/
theorem ensureRequired_cons_ok (db : Database) (d : Bool) (n : EnsureSchema)
    (ns : List EnsureSchema) (execs : List Sql) (u : SchemaState) (ev : List Event)
    (h : ensure_with_dry_run n db d execs = (Except.ok u, ev)) :
    ensureRequired db d (n :: ns) execs =
      ((ensureRequired db d ns (execs ++ execsOf ev)).1,
       ev ++ (ensureRequired db d ns (execs ++ execsOf ev)).2) := by
  simp only [ensureRequired]
  rw [h]

theorem ensureRequired_append_ok (db : Database) (d : Bool) (pre rest : List EnsureSchema)
    (execs : List Sql) (evp : List Event)
    (h : ensureRequired db d pre execs = (Except.ok (), evp)) :
    ensureRequired db d (pre ++ rest) execs =
      ((ensureRequired db d rest (execs ++ execsOf evp)).1,
       evp ++ (ensureRequired db d rest (execs ++ execsOf evp)).2) := by
  induction pre generalizing execs evp with
  | nil =>
    rw [ensureRequired_nil] at h
    obtain ⟨-, h2⟩ := Prod.mk.injEq _ _ _ _ ▸ h
    subst h2
    simp
  | cons n pre ih =>
    rcases hx : ensure_with_dry_run n db d execs with ⟨r, ev⟩
    cases r with
    | error e =>
      rw [ensureRequired_cons_error db d n pre execs e ev hx] at h
      simp at h
    | ok u =>
      rw [ensureRequired_cons_ok db d n pre execs u ev hx] at h
      obtain ⟨h1, h2⟩ := Prod.mk.injEq _ _ _ _ ▸ h
      rcases hy : ensureRequired db d pre (execs ++ execsOf ev) with ⟨r2, ev2⟩
      rw [hy] at h1 h2
      simp only at h1 h2
      have hok : ensureRequired db d pre (execs ++ execsOf ev) = (Except.ok (), ev2) := by
        rw [hy, h1]
      subst h2
      rw [List.cons_append, ensureRequired_cons_ok db d n (pre ++ rest) execs u ev hx,
        ih (execs ++ execsOf ev) ev2 hok]
      simp [List.append_assoc]

/-! Concrete databases used by the witnesses below. -/

/-- Database whose every check query answers a single row holding boolean
`true`, and whose every execute succeeds. -/
def dbAllTrue : Database where
  answerQuery := fun _ _ => Except.ok [[some (Value.bit true)]]
  answerExec := fun _ _ => Except.ok ()

/-- C3 — if applying the check function to the check query's rows yields an
empty corrective-statement list, `Converge` returns `Ok` immediately: the
whole trace is the (optionally logged) single check-query call, so no
prerequisite is converged and no corrective statement is executed, whatever
prerequisites (`reqs`) or statements (inside `cf`) the node was configured
with. -/
theorem converge_short_circuit (name cq : String)
    (cf : List ValueRow → Except Problem (List Sql)) (reqs : List EnsureSchema)
    (db : Database) (dry_run : Bool) (execs : List Sql) (rows : List ValueRow)
    (h1 : db.answerQuery execs cq = Except.ok rows)
    (h2 : cf rows = Except.ok []) :
    ensure_with_dry_run (EnsureSchema.mk name cq cf reqs) db dry_run execs =
      (Except.ok SchemaState.Ok,
       (if dry_run then [Event.logCheck cq] else []) ++ [Event.queryCall cq]) := by
  rw [ensure_with_dry_run]
  simp [h1, h2, checkEvents]

/-- Witness for C3: a node built with a prerequisite and a corrective
statement, whose check reports satisfied, converges to `Ok` with a single
query call. -/
theorem converge_short_circuit_witness :
    ensure_with_dry_run
      (EnsureSchema.with_meet_require (EnsureSchema.with_bool_check "t" "q" ["FIX"])
        (EnsureSchema.with_bool_check "p" "qp" ["FIXP"])) dbAllTrue false [] =
      (Except.ok SchemaState.Ok, [Event.queryCall "q"]) := by
  have h := converge_short_circuit "t" "q"
      ((EnsureSchema.with_bool_check "t" "q" ["FIX"]).check_fn)
      [EnsureSchema.with_bool_check "p" "qp" ["FIXP"]]
      dbAllTrue false [] [[some (Value.bit true)]]
      rfl rfl
  simpa [EnsureSchema.with_meet_require, EnsureSchema.with_bool_check, EnsureSchema.new] using h

theorem countP_map_logWouldMeet (p : Event → Bool) (qs : List Sql)
    (h : ∀ q, p (Event.logWouldMeet q) = false) :
    (qs.map Event.logWouldMeet).countP p = 0 := by
  induction qs with
  | nil => rfl
  | cons q qs ih => simp [List.countP_cons, h, ih]

/-- Case analysis of a dry-run convergence call: either the check phase fails,
or the check reports satisfied, or a prerequisite fails, or the run succeeds
reporting the intended statements; corrective statements are never executed
and the node itself emits exactly one query call. -/
theorem dry_run_shape (node : EnsureSchema) (db : Database) (execs : List Sql) :
    (∃ p, ensure_with_dry_run node db true execs =
        (Except.error (SchemaStateError.CheckError node.name p),
         checkEvents true node.check_query)) ∨
    (ensure_with_dry_run node db true execs =
        (Except.ok SchemaState.Ok, checkEvents true node.check_query)) ∨
    (∃ e ev1, ensureRequired db true node.meet_require execs = (Except.error e, ev1) ∧
       ensure_with_dry_run node db true execs =
         (Except.error e, checkEvents true node.check_query ++ ev1)) ∨
    (∃ mqs ev1, mqs ≠ ([] : List Sql) ∧
       ensureRequired db true node.meet_require execs = (Except.ok (), ev1) ∧
       ensure_with_dry_run node db true execs =
         (Except.ok SchemaState.Ok, checkEvents true node.check_query ++ ev1 ++
            (Event.logMeeting node.name :: mqs.map Event.logWouldMeet))) := by
  rcases hq : db.answerQuery execs node.check_query with p | rows
  · exact Or.inl ⟨p, by simp [ensure_with_dry_run, hq]⟩
  · rcases hf : node.check_fn rows with p | mqs
    · exact Or.inl ⟨p, by simp [ensure_with_dry_run, hq, hf]⟩
    · by_cases hm : mqs.isEmpty
      · exact Or.inr (Or.inl (by simp [ensure_with_dry_run, hq, hf, hm]))
      · rcases hr : ensureRequired db true node.meet_require execs with ⟨r1, ev1⟩
        cases r1 with
        | error e =>
          exact Or.inr (Or.inr (Or.inl ⟨e, ev1, rfl,
            by simp [ensure_with_dry_run, hq, hf, hm, hr]⟩))
        | ok u =>
          cases u
          have hne : mqs ≠ ([] : List Sql) := by
            intro hnil
            subst hnil
            simp at hm
          have heq : ensure_with_dry_run node db true execs =
              (Except.ok SchemaState.Ok, checkEvents true node.check_query ++ ev1 ++
                (Event.logMeeting node.name :: mqs.map Event.logWouldMeet)) := by
            simp [ensure_with_dry_run, hq, hf, hm, hr]
          exact Or.inr (Or.inr (Or.inr ⟨mqs, ev1, hne, rfl, heq⟩))

@[simp]
theorem isExecCall_eval_queryCall (q : Sql) : isExecCall (Event.queryCall q) = false := rfl

@[simp]
theorem isExecCall_eval_execCall (q : Sql) : isExecCall (Event.execCall q) = true := rfl

@[simp]
theorem isExecCall_eval_logCheck (q : Sql) : isExecCall (Event.logCheck q) = false := rfl

@[simp]
theorem isExecCall_eval_logMeeting (n : String) : isExecCall (Event.logMeeting n) = false := rfl

@[simp]
theorem isExecCall_eval_logWouldMeet (q : Sql) : isExecCall (Event.logWouldMeet q) = false := rfl

@[simp]
theorem isQueryCall_eval_queryCall (q : Sql) : isQueryCall (Event.queryCall q) = true := rfl

@[simp]
theorem isQueryCall_eval_execCall (q : Sql) : isQueryCall (Event.execCall q) = false := rfl

@[simp]
theorem isQueryCall_eval_logCheck (q : Sql) : isQueryCall (Event.logCheck q) = false := rfl

@[simp]
theorem isQueryCall_eval_logMeeting (n : String) : isQueryCall (Event.logMeeting n) = false := rfl

@[simp]
theorem isQueryCall_eval_logWouldMeet (q : Sql) : isQueryCall (Event.logWouldMeet q) = false := rfl

@[simp]
theorem isLogCheck_eval_queryCall (q : Sql) : isLogCheck (Event.queryCall q) = false := rfl

@[simp]
theorem isLogCheck_eval_execCall (q : Sql) : isLogCheck (Event.execCall q) = false := rfl

@[simp]
theorem isLogCheck_eval_logCheck (q : Sql) : isLogCheck (Event.logCheck q) = true := rfl

@[simp]
theorem isLogCheck_eval_logMeeting (n : String) : isLogCheck (Event.logMeeting n) = false := rfl

@[simp]
theorem isLogCheck_eval_logWouldMeet (q : Sql) : isLogCheck (Event.logWouldMeet q) = false := rfl

/-- Joint induction (on node size) for dry-run convergence: no execute call is
ever emitted, a successful outcome is always `Ok`, and the trace holds exactly
one query call per informational check report, i.e. one check-query execution
per visited node and no re-verification query. -/
theorem dry_facts_aux (N : Nat) :
    (∀ node : EnsureSchema, sizeOf node ≤ N → ∀ db execs,
       ((ensure_with_dry_run node db true execs).2.countP isExecCall = 0) ∧
       (∀ s, (ensure_with_dry_run node db true execs).1 = Except.ok s → s = SchemaState.Ok) ∧
       ((ensure_with_dry_run node db true execs).2.countP isQueryCall =
        (ensure_with_dry_run node db true execs).2.countP isLogCheck)) ∧
    (∀ ns : List EnsureSchema, sizeOf ns ≤ N → ∀ db execs,
       ((ensureRequired db true ns execs).2.countP isExecCall = 0) ∧
       ((ensureRequired db true ns execs).2.countP isQueryCall =
        (ensureRequired db true ns execs).2.countP isLogCheck)) := by
  induction N using Nat.strong_induction_on with
  | _ N ih =>
    constructor
    · intro node hN db execs
      have hlt : sizeOf node.meet_require < N :=
        lt_of_lt_of_le node.sizeOf_meet_require_lt hN
      have hreq := (ih (sizeOf node.meet_require) hlt).2 node.meet_require le_rfl db execs
      rcases dry_run_shape node db execs with ⟨p, heq⟩ | heq | ⟨e, ev1, hr, heq⟩ |
        ⟨mqs, ev1, hne, hr, heq⟩
      · rw [heq]
        refine ⟨by simp [checkEvents], ?_, by simp [checkEvents]⟩
        intro s hs
        simp at hs
      · rw [heq]
        refine ⟨by simp [checkEvents], ?_, by simp [checkEvents]⟩
        intro s hs
        simp at hs
        exact hs.symm
      · rw [hr] at hreq
        simp only at hreq
        rw [heq]
        refine ⟨?_, ?_, ?_⟩
        · simp [checkEvents, List.countP_append, hreq.1]
        · intro s hs
          simp at hs
        · simp [checkEvents, List.countP_append, hreq.2]
      · rw [hr] at hreq
        simp only at hreq
        rw [heq]
        refine ⟨?_, ?_, ?_⟩
        · simp [checkEvents, List.countP_append, hreq.1,
            countP_map_logWouldMeet isExecCall mqs (fun q => rfl)]
        · intro s hs
          simp at hs
          exact hs.symm
        · simp [checkEvents, List.countP_append, hreq.2,
            countP_map_logWouldMeet isQueryCall mqs (fun q => rfl),
            countP_map_logWouldMeet isLogCheck mqs (fun q => rfl)]
    · intro ns hN db execs
      cases ns with
      | nil =>
        rw [ensureRequired_nil]
        simp
      | cons n rest =>
        rw [List.cons.sizeOf_spec] at hN
        have hn : sizeOf n < N := by omega
        have hrest : sizeOf rest < N := by omega
        have Hn := (ih (sizeOf n) hn).1 n le_rfl db execs
        rcases hx : ensure_with_dry_run n db true execs with ⟨r, ev⟩
        rw [hx] at Hn
        simp only at Hn
        cases r with
        | error e =>
          rw [ensureRequired_cons_error db true n rest execs e ev hx]
          exact ⟨Hn.1, Hn.2.2⟩
        | ok u =>
          rw [ensureRequired_cons_ok db true n rest execs u ev hx]
          have Hrest := (ih (sizeOf rest) hrest).2 rest le_rfl db (execs ++ execsOf ev)
          simp only [List.countP_append]
          exact ⟨by rw [Hn.1, Hrest.1], by rw [Hn.2.2, Hrest.2]⟩

/-- C2 — with `dry_run = true` a convergence call executes no corrective
statement against the database handle, whatever the tree and the check
outcomes: the trace holds no execute call at all; each intended statement is
only reported informationally (the `logWouldMeet` events); and whenever the
call succeeds its outcome is `Ok`, never `Changed`. -/
theorem dry_run_no_mutation (node : EnsureSchema) (db : Database) (execs : List Sql) :
    (∀ q, Event.execCall q ∉ (ensure_with_dry_run node db true execs).2) ∧
    (∀ s, (ensure_with_dry_run node db true execs).1 = Except.ok s →
      s = SchemaState.Ok) ∧
    (∀ rows mqs ev1,
      db.answerQuery execs node.check_query = Except.ok rows →
      node.check_fn rows = Except.ok mqs →
      mqs ≠ [] →
      ensureRequired db true node.meet_require execs = (Except.ok (), ev1) →
      ensure_with_dry_run node db true execs =
        (Except.ok SchemaState.Ok,
         [Event.logCheck node.check_query, Event.queryCall node.check_query] ++ ev1 ++
           (Event.logMeeting node.name :: mqs.map Event.logWouldMeet))) := by
  have H := (dry_facts_aux (sizeOf node)).1 node le_rfl db execs
  refine ⟨?_, H.2.1, ?_⟩
  · intro q hq
    have hfalse := (List.countP_eq_zero.mp H.1) _ hq
    simp at hfalse
  · intro rows mqs ev1 h1 h2 h3 h4
    have hm : mqs.isEmpty = false := by
      cases mqs with
      | nil => exact absurd rfl h3
      | cons a as => rfl
    simp [ensure_with_dry_run, h1, h2, hm, h4, checkEvents]

/-- Witness for C2: a dry run on an unsatisfied leaf node reports the check
and the intended statement, executes nothing, and returns `Ok`. -/
theorem dry_run_no_mutation_witness :
    ensure_with_dry_run (EnsureSchema.mk "t" "q" (fun _ => Except.ok ["FIX"]) [])
        dbAllTrue true [] =
      (Except.ok SchemaState.Ok,
       [Event.logCheck "q", Event.queryCall "q", Event.logMeeting "t",
        Event.logWouldMeet "FIX"]) := by
  have h := (dry_run_no_mutation (EnsureSchema.mk "t" "q" (fun _ => Except.ok ["FIX"]) [])
      dbAllTrue []).2.2 [[some (Value.bit true)]] ["FIX"] []
      rfl rfl (by simp) (by simp [ensureRequired])
  simpa using h

/-- C10 — with `dry_run = true` the check query of every visited node is still
executed against the database handle: the trace of a dry run starts with the
informational check report immediately followed by the check-query call, and
it holds exactly as many query calls as informational check reports — one
check-query execution (hence one check-function application) per visited
node, never the second, verification one. -/
theorem dry_run_still_checks (node : EnsureSchema) (db : Database) (execs : List Sql) :
    ((ensure_with_dry_run node db true execs).2.take 2 =
      [Event.logCheck node.check_query, Event.queryCall node.check_query]) ∧
    ((ensure_with_dry_run node db true execs).2.countP isQueryCall =
      (ensure_with_dry_run node db true execs).2.countP isLogCheck) := by
  have H := (dry_facts_aux (sizeOf node)).1 node le_rfl db execs
  refine ⟨?_, H.2.2⟩
  rcases dry_run_shape node db execs with ⟨p, heq⟩ | heq | ⟨e, ev1, hr, heq⟩ |
    ⟨mqs, ev1, hne, hr, heq⟩ <;> rw [heq] <;> simp [checkEvents]

/-- C1 — real-mode convergence of an unsatisfied node whose re-check is still
unsatisfied after all corrective statements ran: the call returns
`MeetError` naming the node with the verification-failure cause (lib.rs line
154) and not `Changed`; the trace shows the single re-check (two query calls
in total) and no retry of any corrective statement. -/
theorem converge_verification_failure (name cq : String)
    (cf : List ValueRow → Except Problem (List Sql)) (reqs : List EnsureSchema)
    (db : Database) (execs : List Sql) (rows : List ValueRow) (mqs : List Sql)
    (ev1 ev3 : List Event) (rows2 : List ValueRow) (mqs2 : List Sql)
    (h1 : db.answerQuery execs cq = Except.ok rows)
    (h2 : cf rows = Except.ok mqs)
    (h3 : mqs ≠ [])
    (h4 : ensureRequired db false reqs execs = (Except.ok (), ev1))
    (h5 : runMeets db mqs (execs ++ execsOf ev1) = (Except.ok (), ev3))
    (h6 : db.answerQuery (execs ++ execsOf ev1 ++ execsOf ev3) cq = Except.ok rows2)
    (h7 : cf rows2 = Except.ok mqs2)
    (h8 : mqs2 ≠ []) :
    ensure_with_dry_run (EnsureSchema.mk name cq cf reqs) db false execs =
      (Except.error (SchemaStateError.MeetError name
          ("Verification failed for schema state: " ++ name)),
       [Event.queryCall cq] ++ ev1 ++
         (Event.logMeeting name :: (ev3 ++ [Event.queryCall cq]))) := by
  have hm : mqs.isEmpty = false := by
    cases mqs with
    | nil => exact absurd rfl h3
    | cons a as => rfl
  have hm2 : mqs2.isEmpty = false := by
    cases mqs2 with
    | nil => exact absurd rfl h8
    | cons a as => rfl
  rw [List.append_assoc] at h6
  simp [ensure_with_dry_run, h1, h2, hm, h4, h5, h6, h7, hm2, checkEvents]

/-- Witness for C1: a leaf whose check function always returns a corrective
statement fails verification after meeting, with the exact trace. -/
theorem converge_verification_failure_witness :
    ensure_with_dry_run (EnsureSchema.mk "t" "CHK" (fun _ => Except.ok ["FIX"]) [])
        dbAllTrue false [] =
      (Except.error (SchemaStateError.MeetError "t"
          "Verification failed for schema state: t"),
       [Event.queryCall "CHK", Event.logMeeting "t", Event.execCall "FIX",
        Event.queryCall "CHK"]) := by
  have h := converge_verification_failure "t" "CHK" (fun _ => Except.ok ["FIX"]) []
      dbAllTrue [] [[some (Value.bit true)]] ["FIX"] [] [Event.execCall "FIX"]
      [[some (Value.bit true)]] ["FIX"]
      rfl rfl (by simp) (by simp [ensureRequired]) (by simp [runMeets, dbAllTrue])
      rfl rfl (by simp)
  simpa using h

/-- C7 (amended) — during the post-mutation re-verification, a failure to
execute the check query, or an error returned by the check function itself,
causes `Converge` to fail with `MeetError(name, cause)`: the re-verification
happens inside the closure of lib.rs lines 145-164, whose errors are wrapped
at line 165 as `MeetError`, not `CheckError`. -/
theorem reverify_error_meet_error (name cq : String)
    (cf : List ValueRow → Except Problem (List Sql)) (reqs : List EnsureSchema)
    (db : Database) (execs : List Sql) (rows : List ValueRow) (mqs : List Sql)
    (ev1 ev3 : List Event)
    (h1 : db.answerQuery execs cq = Except.ok rows)
    (h2 : cf rows = Except.ok mqs)
    (h3 : mqs ≠ [])
    (h4 : ensureRequired db false reqs execs = (Except.ok (), ev1))
    (h5 : runMeets db mqs (execs ++ execsOf ev1) = (Except.ok (), ev3)) :
    (∀ p, db.answerQuery (execs ++ execsOf ev1 ++ execsOf ev3) cq = Except.error p →
       (ensure_with_dry_run (EnsureSchema.mk name cq cf reqs) db false execs).1 =
         Except.error (SchemaStateError.MeetError name p)) ∧
    (∀ rows2 p, db.answerQuery (execs ++ execsOf ev1 ++ execsOf ev3) cq = Except.ok rows2 →
       cf rows2 = Except.error p →
       (ensure_with_dry_run (EnsureSchema.mk name cq cf reqs) db false execs).1 =
         Except.error (SchemaStateError.MeetError name p)) := by
  have hm : mqs.isEmpty = false := by
    cases mqs with
    | nil => exact absurd rfl h3
    | cons a as => rfl
  constructor
  · intro p h6
    rw [List.append_assoc] at h6
    simp [ensure_with_dry_run, h1, h2, hm, h4, h5, h6]
  · intro rows2 p h6 h7
    rw [List.append_assoc] at h6
    simp [ensure_with_dry_run, h1, h2, hm, h4, h5, h6, h7]

/-- Database for the C7 counterexample: the first check answers a single
`false` row, and any check after some statement has executed fails. -/
def dbRecheckBoom : Database where
  answerQuery := fun execs _ =>
    if execs.isEmpty then Except.ok [[some (Value.bit false)]]
    else Except.error "recheck boom"
  answerExec := fun _ _ => Except.ok ()

/-- Counterexample to C7 as stated: when the re-verification check query
fails, the call returns `MeetError("t", ..)`, and no `CheckError("t", ..)` of
any cause. -/
theorem reverify_error_not_check_error :
    (ensure_with_dry_run (EnsureSchema.with_bool_check "t" "CHK" ["FIX"])
        dbRecheckBoom false []).1 =
      Except.error (SchemaStateError.MeetError "t" "recheck boom") ∧
    ¬ ∃ c, (ensure_with_dry_run (EnsureSchema.with_bool_check "t" "CHK" ["FIX"])
        dbRecheckBoom false []).1 =
      Except.error (SchemaStateError.CheckError "t" c) := by
  have heval : (ensure_with_dry_run (EnsureSchema.with_bool_check "t" "CHK" ["FIX"])
      dbRecheckBoom false []).1 =
      Except.error (SchemaStateError.MeetError "t" "recheck boom") := by
    simp [ensure_with_dry_run, EnsureSchema.with_bool_check, EnsureSchema.new,
      ensureRequired, runMeets, dbRecheckBoom, single, try_from_value_row_bool]
  refine ⟨heval, ?_⟩
  rintro ⟨c, hc⟩
  rw [heval] at hc
  simp at hc

/-- Witness for the amended C7: the same scenario through the general
theorem, concretely. -/
theorem reverify_error_meet_error_witness :
    (ensure_with_dry_run (EnsureSchema.mk "t" "CHK" (fun _ => Except.ok ["FIX"]) [])
        dbRecheckBoom false []).1 =
      Except.error (SchemaStateError.MeetError "t" "recheck boom") :=
  (reverify_error_meet_error "t" "CHK" (fun _ => Except.ok ["FIX"]) []
      dbRecheckBoom [] [[some (Value.bit false)]] ["FIX"] [] [Event.execCall "FIX"]
      rfl rfl (by simp) (by simp [ensureRequired])
      (by simp [runMeets, dbRecheckBoom])).1 "recheck boom" rfl

/-- C4 — when a node's check yields a non-empty corrective list, all its
prerequisites are converged — by `ensureRequired`, i.e. in declared order,
against the same database and the same `dry_run` flag, each continuing from
the statements executed by the previous one, recursively depth-first — and
their whole trace `ev1` sits between the node's check and the node's own
meeting phase; with `dry_run = false` the events right after the meeting
report are exactly the execution of the node's own corrective statements. -/
theorem prerequisites_converge_first (name cq : String)
    (cf : List ValueRow → Except Problem (List Sql)) (reqs : List EnsureSchema)
    (db : Database) (d : Bool) (execs : List Sql) (rows : List ValueRow)
    (mqs : List Sql) (ev1 : List Event)
    (h1 : db.answerQuery execs cq = Except.ok rows)
    (h2 : cf rows = Except.ok mqs)
    (h3 : mqs ≠ [])
    (h4 : ensureRequired db d reqs execs = (Except.ok (), ev1)) :
    ∃ r rest,
      ensure_with_dry_run (EnsureSchema.mk name cq cf reqs) db d execs =
        (r, checkEvents d cq ++ ev1 ++ (Event.logMeeting name :: rest)) ∧
      (d = false →
        ∃ rest2, rest = (runMeets db mqs (execs ++ execsOf ev1)).2 ++ rest2) := by
  have hm : mqs.isEmpty = false := by
    cases mqs with
    | nil => exact absurd rfl h3
    | cons a as => rfl
  cases d with
  | true =>
    refine ⟨Except.ok SchemaState.Ok, mqs.map Event.logWouldMeet, ?_, ?_⟩
    · simp [ensure_with_dry_run, h1, h2, hm, h4, checkEvents]
    · intro hd
      simp at hd
  | false =>
    rcases hrm : runMeets db mqs (execs ++ execsOf ev1) with ⟨rm, ev3⟩
    cases rm with
    | error p =>
      refine ⟨Except.error (SchemaStateError.MeetError name p), ev3, ?_, ?_⟩
      · simp [ensure_with_dry_run, h1, h2, hm, h4, hrm, checkEvents]
      · intro hd
        exact ⟨[], by simp⟩
    | ok u =>
      cases u
      rcases hv : db.answerQuery (execs ++ execsOf ev1 ++ execsOf ev3) cq with p | rows2
      · rw [List.append_assoc] at hv
        refine ⟨Except.error (SchemaStateError.MeetError name p),
          ev3 ++ [Event.queryCall cq], ?_, fun hd => ⟨[Event.queryCall cq], by simp⟩⟩
        simp [ensure_with_dry_run, h1, h2, hm, h4, hrm, hv, checkEvents]
      · rw [List.append_assoc] at hv
        rcases hf2 : cf rows2 with p | meet2
        · refine ⟨Except.error (SchemaStateError.MeetError name p),
            ev3 ++ [Event.queryCall cq], ?_, fun hd => ⟨[Event.queryCall cq], by simp⟩⟩
          simp [ensure_with_dry_run, h1, h2, hm, h4, hrm, hv, hf2, checkEvents]
        · by_cases hm2 : meet2.isEmpty
          · refine ⟨Except.ok SchemaState.Changed,
              ev3 ++ [Event.queryCall cq], ?_, fun hd => ⟨[Event.queryCall cq], by simp⟩⟩
            simp [ensure_with_dry_run, h1, h2, hm, h4, hrm, hv, hf2, hm2, checkEvents]
          · refine ⟨Except.error (SchemaStateError.MeetError name
                ("Verification failed for schema state: " ++ name)),
              ev3 ++ [Event.queryCall cq], ?_, fun hd => ⟨[Event.queryCall cq], by simp⟩⟩
            simp [ensure_with_dry_run, h1, h2, hm, h4, hrm, hv, hf2, hm2, checkEvents]

/-- Database for the C4 witness: prerequisite check `qb` turns satisfied once
`fixB` has executed; every other check reports unsatisfied. -/
def dbChain : Database where
  answerQuery := fun execs q =>
    if q = "qb" then
      (if "fixB" ∈ execs then Except.ok [[some (Value.bit true)]]
       else Except.ok [[some (Value.bit false)]])
    else Except.ok [[some (Value.bit false)]]
  answerExec := fun _ _ => Except.ok ()

/-- Witness for C4: node `A` with prerequisite `B`; `B`'s full convergence
(check, meet, re-check) sits between `A`'s check and `A`'s meeting phase, and
`A`'s own corrective statements follow immediately after. -/
theorem prerequisites_converge_first_witness :
    ∃ r rest,
      ensure_with_dry_run (EnsureSchema.mk "A" "qa" (fun _ => Except.ok ["fixA"])
          [EnsureSchema.with_bool_check "B" "qb" ["fixB"]]) dbChain false [] =
        (r, checkEvents false "qa" ++
           [Event.queryCall "qb", Event.logMeeting "B", Event.execCall "fixB",
            Event.queryCall "qb"] ++ (Event.logMeeting "A" :: rest)) ∧
      (false = false →
        ∃ rest2, rest = (runMeets dbChain ["fixA"]
          ([] ++ execsOf [Event.queryCall "qb", Event.logMeeting "B",
            Event.execCall "fixB", Event.queryCall "qb"])).2 ++ rest2) := by
  exact prerequisites_converge_first "A" "qa" (fun _ => Except.ok ["fixA"])
      [EnsureSchema.with_bool_check "B" "qb" ["fixB"]] dbChain false []
      [[some (Value.bit false)]] ["fixA"]
      [Event.queryCall "qb", Event.logMeeting "B", Event.execCall "fixB",
       Event.queryCall "qb"]
      rfl rfl (by simp)
      (by simp [ensureRequired, ensure_with_dry_run, EnsureSchema.with_bool_check,
        EnsureSchema.new, single, try_from_value_row_bool, runMeets, dbChain,
        checkEvents])

/-- C5 — if converging one of a node's prerequisites fails, the dependent
node's call returns that prerequisite's error value unchanged (not re-wrapped
with the dependent's name), and the trace ends with the failing
prerequisite's events: later prerequisites (`post`) and the dependent's own
corrective statements never run. -/
theorem prerequisite_error_propagates (name cq : String)
    (cf : List ValueRow → Except Problem (List Sql))
    (pre : List EnsureSchema) (pnode : EnsureSchema) (post : List EnsureSchema)
    (db : Database) (d : Bool) (execs : List Sql) (rows : List ValueRow)
    (mqs : List Sql) (evp evq : List Event) (e : SchemaStateError)
    (h1 : db.answerQuery execs cq = Except.ok rows)
    (h2 : cf rows = Except.ok mqs)
    (h3 : mqs ≠ [])
    (h4 : ensureRequired db d pre execs = (Except.ok (), evp))
    (h5 : ensure_with_dry_run pnode db d (execs ++ execsOf evp) = (Except.error e, evq)) :
    ensure_with_dry_run (EnsureSchema.mk name cq cf (pre ++ pnode :: post)) db d execs =
      (Except.error e, checkEvents d cq ++ (evp ++ evq)) := by
  have hm : mqs.isEmpty = false := by
    cases mqs with
    | nil => exact absurd rfl h3
    | cons a as => rfl
  have hreq : ensureRequired db d (pre ++ pnode :: post) execs =
      (Except.error e, evp ++ evq) := by
    rw [ensureRequired_append_ok db d pre (pnode :: post) execs evp h4,
      ensureRequired_cons_error db d pnode post (execs ++ execsOf evp) e evq h5]
  simp [ensure_with_dry_run, h1, h2, hm, hreq, checkEvents]

/-- Database for the C5 witness: the prerequisite check `qp` fails, every
other check reports unsatisfied. -/
def dbPrereqBoom : Database where
  answerQuery := fun _ q =>
    if q = "qp" then Except.error "pboom" else Except.ok [[some (Value.bit false)]]
  answerExec := fun _ _ => Except.ok ()

/-- Witness for C5: the prerequisite's `CheckError` naming `P` comes back
unchanged from converging the dependent `A`, whose own statements never
run. -/
theorem prerequisite_error_propagates_witness :
    ensure_with_dry_run (EnsureSchema.mk "A" "qa" (fun _ => Except.ok ["fixA"])
        ([] ++ EnsureSchema.with_bool_check "P" "qp" ["fixP"] :: []))
        dbPrereqBoom false [] =
      (Except.error (SchemaStateError.CheckError "P" "pboom"),
       checkEvents false "qa" ++ ([] ++ [Event.queryCall "qp"])) := by
  exact prerequisite_error_propagates "A" "qa" (fun _ => Except.ok ["fixA"])
      [] (EnsureSchema.with_bool_check "P" "qp" ["fixP"]) [] dbPrereqBoom false []
      [[some (Value.bit false)]] ["fixA"] [] [Event.queryCall "qp"]
      (SchemaStateError.CheckError "P" "pboom")
      rfl rfl (by simp) (by simp [ensureRequired])
      (by simp [ensure_with_dry_run, EnsureSchema.with_bool_check, EnsureSchema.new,
        dbPrereqBoom, checkEvents])

/-- C9 — a leaf node whose check is first unsatisfied and, after its
corrective statements ran, satisfied: real-mode convergence returns `Changed`
with the exact trace `check, meeting report, one execute per corrective
statement in order, re-check` — the check query runs exactly twice (so the
check function is applied exactly twice) and each corrective statement
exactly once. -/
theorem converge_changed_exact_trace (name cq : String)
    (cf : List ValueRow → Except Problem (List Sql)) (db : Database)
    (execs : List Sql) (rows : List ValueRow) (mqs : List Sql)
    (ev3 : List Event) (rows2 : List ValueRow)
    (h1 : db.answerQuery execs cq = Except.ok rows)
    (h2 : cf rows = Except.ok mqs)
    (h3 : mqs ≠ [])
    (h4 : runMeets db mqs execs = (Except.ok (), ev3))
    (h5 : db.answerQuery (execs ++ mqs) cq = Except.ok rows2)
    (h6 : cf rows2 = Except.ok []) :
    ensure_with_dry_run (EnsureSchema.mk name cq cf []) db false execs =
      (Except.ok SchemaState.Changed,
       Event.queryCall cq :: (Event.logMeeting name ::
         (mqs.map Event.execCall ++ [Event.queryCall cq]))) := by
  have hm : mqs.isEmpty = false := by
    cases mqs with
    | nil => exact absurd rfl h3
    | cons a as => rfl
  have hev3 : ev3 = mqs.map Event.execCall := runMeets_ok_events db mqs execs () ev3 h4
  have hex : execsOf ev3 = mqs := execsOf_runMeets_ok db mqs execs () ev3 h4
  rw [hev3] at h4 hex
  simp [ensure_with_dry_run, ensureRequired, h1, h2, hm, h4, hex, h5, h6, checkEvents]

/-- Database for the C9 witness, the end-to-end scenario of the spec: the
check reports `false` until `CREATE TABLE x` has executed, then `true`. -/
def dbTableX : Database where
  answerQuery := fun execs _ =>
    if "CREATE TABLE x" ∈ execs then Except.ok [[some (Value.bit true)]]
    else Except.ok [[some (Value.bit false)]]
  answerExec := fun _ _ => Except.ok ()

/-- Witness for C9: the spec's `table_x` scenario, with one execute call and
two query calls. -/
theorem converge_changed_exact_trace_witness :
    ensure_with_dry_run
        (EnsureSchema.with_bool_check "table_x" "SELECT hasx" ["CREATE TABLE x"])
        dbTableX false [] =
      (Except.ok SchemaState.Changed,
       Event.queryCall "SELECT hasx" :: (Event.logMeeting "table_x" ::
         (["CREATE TABLE x"].map Event.execCall ++ [Event.queryCall "SELECT hasx"]))) := by
  exact converge_changed_exact_trace "table_x" "SELECT hasx"
      ((EnsureSchema.with_bool_check "table_x" "SELECT hasx" ["CREATE TABLE x"]).check_fn)
      dbTableX [] [[some (Value.bit false)]] ["CREATE TABLE x"]
      [Event.execCall "CREATE TABLE x"] [[some (Value.bit true)]]
      rfl rfl (by simp) (by simp [runMeets, dbTableX]) (by simp [dbTableX]) rfl

/-- C6 — a node built with `with_bool_check`: a single truthy row yields the
empty corrective list, a single falsy row yields the configured statements
unchanged, and zero rows, two or more rows, or a single row whose value is
not a boolean make the convergence call fail with `CheckError` naming the
node. -/
theorem with_bool_check_cases (name cq : String) (mqs : List Sql)
    (db : Database) (d : Bool) (execs : List Sql) :
    ((EnsureSchema.with_bool_check name cq mqs).check_fn [[some (Value.bit true)]] =
       Except.ok []) ∧
    ((EnsureSchema.with_bool_check name cq mqs).check_fn [[some (Value.bit false)]] =
       Except.ok mqs) ∧
    (db.answerQuery execs cq = Except.ok [] →
      ∃ p, (ensure_with_dry_run (EnsureSchema.with_bool_check name cq mqs) db d execs).1 =
        Except.error (SchemaStateError.CheckError name p)) ∧
    (∀ r1 r2 rs, db.answerQuery execs cq = Except.ok (r1 :: r2 :: rs) →
      ∃ p, (ensure_with_dry_run (EnsureSchema.with_bool_check name cq mqs) db d execs).1 =
        Except.error (SchemaStateError.CheckError name p)) ∧
    (∀ row p, db.answerQuery execs cq = Except.ok [row] →
      try_from_value_row_bool row = Except.error p →
      (ensure_with_dry_run (EnsureSchema.with_bool_check name cq mqs) db d execs).1 =
        Except.error (SchemaStateError.CheckError name p)) := by
  refine ⟨rfl, rfl, ?_, ?_, ?_⟩
  · intro h
    exact ⟨"unexpected number of rows: got none, expected one",
      by simp [ensure_with_dry_run, h, EnsureSchema.with_bool_check, EnsureSchema.new,
        single, checkEvents]⟩
  · intro r1 r2 rs h
    exact ⟨"unexpected number of rows: got many, expected one",
      by simp [ensure_with_dry_run, h, EnsureSchema.with_bool_check, EnsureSchema.new,
        single, checkEvents]⟩
  · intro row p h ht
    simp [ensure_with_dry_run, h, ht, EnsureSchema.with_bool_check, EnsureSchema.new,
      single, checkEvents]

/-- Database answering every check query with zero rows. -/
def dbNoRows : Database where
  answerQuery := fun _ _ => Except.ok []
  answerExec := fun _ _ => Except.ok ()

/-- Witness for C6: the falsy row returns the configured statements
unchanged, and a zero-row answer is a `CheckError` naming the node. -/
theorem with_bool_check_cases_witness :
    ((EnsureSchema.with_bool_check "t" "q" ["FIX"]).check_fn [[some (Value.bit false)]] =
       Except.ok ["FIX"]) ∧
    ∃ p, (ensure_with_dry_run (EnsureSchema.with_bool_check "t" "q" ["FIX"])
        dbNoRows false []).1 =
      Except.error (SchemaStateError.CheckError "t" p) := by
  have h := with_bool_check_cases "t" "q" ["FIX"] dbNoRows false []
  exact ⟨h.2.1, h.2.2.1 rfl⟩

/-- Inversion of a successful real-mode convergence: the node's check
function, applied to the database's answer in the final state (after all
statements the run executed), reports satisfied. -/
theorem converge_ok_final_check (node : EnsureSchema) (db : Database)
    (execs : List Sql) (s : SchemaState) (ev : List Event)
    (h : ensure_with_dry_run node db false execs = (Except.ok s, ev)) :
    ∃ rows, db.answerQuery (execs ++ execsOf ev) node.check_query = Except.ok rows ∧
      node.check_fn rows = Except.ok [] := by
  rcases hq : db.answerQuery execs node.check_query with p | rows
  · simp [ensure_with_dry_run, hq] at h
  · rcases hf : node.check_fn rows with p | mqs
    · simp [ensure_with_dry_run, hq, hf] at h
    · by_cases hm : mqs.isEmpty
      · have hnil : mqs = [] := by
          cases mqs with
          | nil => rfl
          | cons a as => simp at hm
        simp [ensure_with_dry_run, hq, hf, hm, checkEvents] at h
        obtain ⟨-, hev⟩ := h
        refine ⟨rows, ?_, by rw [hf, hnil]⟩
        rw [← hev]
        simpa using hq
      · rcases hr : ensureRequired db false node.meet_require execs with ⟨r1, ev1⟩
        cases r1 with
        | error e => simp [ensure_with_dry_run, hq, hf, hm, hr] at h
        | ok u =>
          cases u
          rcases hrm : runMeets db mqs (execs ++ execsOf ev1) with ⟨rm, ev3⟩
          cases rm with
          | error p => simp [ensure_with_dry_run, hq, hf, hm, hr, hrm] at h
          | ok u2 =>
            cases u2
            rcases hv : db.answerQuery (execs ++ execsOf ev1 ++ execsOf ev3)
                node.check_query with p | rows2
            · rw [List.append_assoc] at hv
              simp [ensure_with_dry_run, hq, hf, hm, hr, hrm, hv] at h
            · rw [List.append_assoc] at hv
              rcases hf2 : node.check_fn rows2 with p | meet2
              · simp [ensure_with_dry_run, hq, hf, hm, hr, hrm, hv, hf2] at h
              · by_cases hm2 : meet2.isEmpty
                · have hnil2 : meet2 = [] := by
                    cases meet2 with
                    | nil => rfl
                    | cons a as => simp at hm2
                  simp [ensure_with_dry_run, hq, hf, hm, hr, hrm, hv, hf2, hm2,
                    checkEvents] at h
                  obtain ⟨-, hev⟩ := h
                  refine ⟨rows2, ?_, by rw [hf2, hnil2]⟩
                  rw [← hev]
                  simpa using hv
                · simp [ensure_with_dry_run, hq, hf, hm, hr, hrm, hv, hf2, hm2] at h

/-- C8 — idempotence: if a convergence call on a node succeeds (`Ok` or
`Changed`), converging an identical copy of the node against the database in
the state the first call left it (after the statements `execsOf ev` it
executed; in this model the database's answers depend only on the executed
statements, so they are unchanged between the calls) returns `Ok` and
executes no corrective statement. -/
theorem converge_idempotent (node : EnsureSchema) (db : Database) (d : Bool)
    (execs : List Sql) (s : SchemaState) (ev : List Event)
    (h : ensure_with_dry_run node db d execs = (Except.ok s, ev)) :
    ∃ ev2, ensure_with_dry_run node db d (execs ++ execsOf ev) =
        (Except.ok SchemaState.Ok, ev2) ∧ ∀ q, Event.execCall q ∉ ev2 := by
  cases d with
  | false =>
    obtain ⟨rows, hq, hf⟩ := converge_ok_final_check node db execs s ev h
    refine ⟨checkEvents false node.check_query, ?_, ?_⟩
    · simp [ensure_with_dry_run, hq, hf, checkEvents]
    · intro q hqmem
      simp [checkEvents] at hqmem
  | true =>
    have H := (dry_facts_aux (sizeOf node)).1 node le_rfl db execs
    have hcount : ev.countP isExecCall = 0 := by
      have h1 := H.1
      rw [h] at h1
      simpa using h1
    have hex : execsOf ev = [] := execsOf_eq_nil_of_no_exec ev hcount
    have hs : s = SchemaState.Ok := by
      apply H.2.1
      rw [h]
    refine ⟨ev, ?_, ?_⟩
    · rw [hex, List.append_nil, h, hs]
    · intro q hqm
      have hq := (List.countP_eq_zero.mp hcount) _ hqm
      simp at hq

/-- Witness for C8: after the `table_x` scenario converged with `Changed`,
running an identical node again returns `Ok` with no execute call. -/
theorem converge_idempotent_witness :
    ∃ ev2, ensure_with_dry_run
        (EnsureSchema.with_bool_check "table_x" "SELECT hasx" ["CREATE TABLE x"])
        dbTableX false
        ([] ++ execsOf [Event.queryCall "SELECT hasx", Event.logMeeting "table_x",
          Event.execCall "CREATE TABLE x", Event.queryCall "SELECT hasx"]) =
      (Except.ok SchemaState.Ok, ev2) ∧ ∀ q, Event.execCall q ∉ ev2 :=
  converge_idempotent
    (EnsureSchema.with_bool_check "table_x" "SELECT hasx" ["CREATE TABLE x"])
    dbTableX false [] SchemaState.Changed
    [Event.queryCall "SELECT hasx", Event.logMeeting "table_x",
     Event.execCall "CREATE TABLE x", Event.queryCall "SELECT hasx"]
    (by simp [ensure_with_dry_run, ensureRequired, EnsureSchema.with_bool_check,
      EnsureSchema.new, single, try_from_value_row_bool, runMeets, dbTableX,
      checkEvents])
